import Mathlib

/-!
Verification of the modal text-editing engine of the halfmoon repository
(src/editor_widget.rs).  The mode state machine (`transition`, `input`) is
embedded directly from the source.  The text-buffer primitives live in the
external `tui_textarea` crate, whose code is not part of the repository:
those are modelled from the specification (each such definition carries a
doc comment starting with `Modelled from the spec:`).
-/

set_option autoImplicit false

namespace Halfmoon

/-- Keys of a classified input token, as matched in editor_widget.rs. -/
inductive Key
  | Null
  | Char (c : Char)
  | Esc
  | Enter
  deriving DecidableEq

/-- Classified input token: a key plus modifier flags (tui_textarea::Input). -/
structure Input where
  key : Key
  ctrl : Bool
  alt : Bool
  deriving DecidableEq

/-- Default input value (`Input::default()`): the Null key, no modifiers. -/
def defaultInput : Input := ⟨Key.Null, false, false⟩

/-- Plain character token without modifiers. -/
def chr (c : Char) : Input := ⟨Key.Char c, false, false⟩

/-- Character token with the ctrl modifier. -/
def ctrlChr (c : Char) : Input := ⟨Key.Char c, true, false⟩

/-- Escape token. -/
def escInput : Input := ⟨Key.Esc, false, false⟩

/-- Editor mode (enum Mode in editor_widget.rs). -/
inductive Mode
  | Normal
  | Insert
  | Visual
  | Operator (c : Char)
  deriving DecidableEq

/-- Cursor / text position: row and column (tui_textarea cursor is (row, col)). -/
structure Pos where
  row : Nat
  col : Nat
  deriving DecidableEq

/-- Register tag: character-wise or line-wise content. -/
inductive YankKind
  | CharacterWise
  | LineWise
  deriving DecidableEq

/-- Modelled from the spec: the single-slot register holds the text of the
most recent copy/cut (as line segments), tagged character-wise or line-wise. -/
structure Register where
  kind : YankKind
  content : List String
  deriving DecidableEq

/-- Character classes used by word motions: whitespace, alphanumeric,
other non-space. -/
inductive CClass
  | space
  | alnum
  | other
  deriving DecidableEq

/-- Modelled from the spec: word classification uses three classes:
alphanumeric, other-non-space, space. -/
def classOf (ch : Char) : CClass :=
  if ch.isWhitespace then CClass.space
  else if ch.isAlphanum then CClass.alnum
  else CClass.other

/-- Length of the leading run of characters of class `k`. -/
def runLen (k : CClass) : List Char → Nat
  | [] => 0
  | ch :: rest => if classOf ch = k then runLen k rest + 1 else 0

/-- Modelled from the spec: `w` skips to the start of the next word (maximal
run of one non-space class), clamped to the line length. -/
def wordForwardCol (cs : List Char) (c : Nat) : Nat :=
  match cs.drop c with
  | [] => min c cs.length
  | ch :: rest =>
    let i := match classOf ch with
      | CClass.space => c
      | k => c + 1 + runLen k rest
    min (i + runLen CClass.space (cs.drop i)) cs.length

/-- Modelled from the spec: `b` moves back over trailing whitespace to the
start of the previous word. -/
def wordBackCol (cs : List Char) (c : Nat) : Nat :=
  let pre := (cs.take c).reverse
  let a := runLen CClass.space pre
  match pre.drop a with
  | [] => 0
  | ch :: rest => c - a - runLen (classOf ch) (ch :: rest)

/-- Modelled from the spec: `e` moves to the last character of the current
or next word. -/
def wordEndCol (cs : List Char) (c : Nat) : Nat :=
  let i := c + 1
  let j := i + runLen CClass.space (cs.drop i)
  match cs.drop j with
  | [] => min c cs.length
  | ch :: rest => j + runLen (classOf ch) (ch :: rest) - 1

/-- Cursor motions used by the state machine (tui_textarea::CursorMove). -/
inductive CursorMove
  | Back
  | Forward
  | Up
  | Down
  | Head
  | End
  | Top
  | Bottom
  | WordForward
  | WordBack
  | WordEnd
  deriving DecidableEq

/-- Modelled from the spec: the text buffer owns the lines, the cursor, an
optional selection anchor, the single-slot register, and snapshot stacks for
undo/redo.  This stands in for tui_textarea::TextArea, whose code is outside
the repository. -/
structure TextArea where
  lines : List String
  cursor : Pos
  anchor : Option Pos
  register : Option Register
  undoStack : List (List String × Pos)
  redoStack : List (List String × Pos)
  deriving DecidableEq

/-- Line at index `i` (empty when out of range). -/
def TextArea.lineAt (ta : TextArea) (i : Nat) : String :=
  ta.lines.getD i (String.mk [])

/-- Modelled from the spec: motions are pure cursor computations, always
clamped to buffer bounds; vertical moves preserve the column best-effort,
clamped to the target line length. -/
def TextArea.moveCursor (ta : TextArea) (m : CursorMove) : TextArea :=
  let r := ta.cursor.row
  let c := ta.cursor.col
  let nl := ta.lines.length
  match m with
  | CursorMove.Back => { ta with cursor := ⟨r, c - 1⟩ }
  | CursorMove.Forward => { ta with cursor := ⟨r, min (c + 1) (ta.lineAt r).length⟩ }
  | CursorMove.Up =>
    let r2 := r - 1
    { ta with cursor := ⟨r2, min c (ta.lineAt r2).length⟩ }
  | CursorMove.Down =>
    let r2 := min (r + 1) (nl - 1)
    { ta with cursor := ⟨r2, min c (ta.lineAt r2).length⟩ }
  | CursorMove.Head => { ta with cursor := ⟨r, 0⟩ }
  | CursorMove.End => { ta with cursor := ⟨r, (ta.lineAt r).length⟩ }
  | CursorMove.Top => { ta with cursor := ⟨0, min c (ta.lineAt 0).length⟩ }
  | CursorMove.Bottom =>
    let r2 := nl - 1
    { ta with cursor := ⟨r2, min c (ta.lineAt r2).length⟩ }
  | CursorMove.WordForward =>
    { ta with cursor := ⟨r, wordForwardCol (ta.lineAt r).data c⟩ }
  | CursorMove.WordBack =>
    { ta with cursor := ⟨r, wordBackCol (ta.lineAt r).data c⟩ }
  | CursorMove.WordEnd =>
    { ta with cursor := ⟨r, wordEndCol (ta.lineAt r).data c⟩ }

/-- Set the selection anchor at the current cursor. -/
def TextArea.startSelection (ta : TextArea) : TextArea :=
  { ta with anchor := some ta.cursor }

/-- Clear the selection anchor. -/
def TextArea.cancelSelection (ta : TextArea) : TextArea :=
  { ta with anchor := none }

/-- Modelled from the spec: an undo entry is a full snapshot of buffer
content and cursor position, pushed before every mutating command executes;
any new mutating command clears the redo stack. -/
def TextArea.pushHistory (ta : TextArea) : TextArea :=
  { ta with undoStack := (ta.lines, ta.cursor) :: ta.undoStack, redoStack := [] }

/-- Modelled from the spec: `undo` pops the most recent snapshot, restoring
buffer and cursor, and pushes the pre-undo state onto the redo stack. -/
def TextArea.undo (ta : TextArea) : TextArea :=
  match ta.undoStack with
  | [] => ta
  | (ls, cur) :: rest =>
    { ta with lines := ls, cursor := cur, undoStack := rest,
              redoStack := (ta.lines, ta.cursor) :: ta.redoStack }

/-- Modelled from the spec: `redo` pops the redo stack and re-applies that
snapshot, which is then eligible to be undone again. -/
def TextArea.redo (ta : TextArea) : TextArea :=
  match ta.redoStack with
  | [] => ta
  | (ls, cur) :: rest =>
    { ta with lines := ls, cursor := cur, redoStack := rest,
              undoStack := (ta.lines, ta.cursor) :: ta.undoStack }

/-- Modelled from the spec: delete from the cursor to the end of the current
line (`D`/`C`). -/
def TextArea.deleteLineByEnd (ta : TextArea) : TextArea :=
  let ta2 := ta.pushHistory
  let r := ta2.cursor.row
  let line := ta2.lineAt r
  { ta2 with lines := ta2.lines.set r (String.mk (line.data.take ta2.cursor.col)) }

/-- Modelled from the spec: `x` deletes the character under the cursor. -/
def TextArea.deleteNextChar (ta : TextArea) : TextArea :=
  let ta2 := ta.pushHistory
  let r := ta2.cursor.row
  let c := ta2.cursor.col
  let line := ta2.lineAt r
  { ta2 with lines := ta2.lines.set r (String.mk (line.data.take c ++ line.data.drop (c + 1))) }

/-- Modelled from the spec: text insertion inserts the character at the
cursor and shifts the cursor forward by the inserted width. -/
def TextArea.insertChar (ta : TextArea) (ch : Char) : TextArea :=
  let ta2 := ta.pushHistory
  let r := ta2.cursor.row
  let c := ta2.cursor.col
  let line := ta2.lineAt r
  { ta2 with lines := ta2.lines.set r (String.mk (line.data.take c ++ ch :: line.data.drop c)),
             cursor := ⟨r, min c line.length + 1⟩ }

/-- Modelled from the spec: a newline token splits the line at the cursor. -/
def TextArea.insertNewline (ta : TextArea) : TextArea :=
  let ta2 := ta.pushHistory
  let r := ta2.cursor.row
  let c := ta2.cursor.col
  let line := ta2.lineAt r
  { ta2 with
      lines := ta2.lines.take r ++
        [String.mk (line.data.take c), String.mk (line.data.drop c)] ++
        ta2.lines.drop (r + 1),
      cursor := ⟨r + 1, 0⟩ }

/-- Clamp a position to the buffer bounds. -/
def TextArea.clampPos (ta : TextArea) (p : Pos) : Pos :=
  let r := min p.row (ta.lines.length - 1)
  ⟨r, min p.col (ta.lineAt r).length⟩

/-- Lexicographic order on positions: (row, col) comparison. -/
def Pos.lePos (a b : Pos) : Bool :=
  Nat.blt a.row b.row || (a.row == b.row && Nat.ble a.col b.col)

/-- Text between two ordered positions, as line segments. -/
def TextArea.textBetween (ta : TextArea) (s e : Pos) : List String :=
  if s.row = e.row then
    [String.mk (((ta.lineAt s.row).data.take e.col).drop s.col)]
  else
    String.mk ((ta.lineAt s.row).data.drop s.col) ::
      ((ta.lines.drop (s.row + 1)).take (e.row - s.row - 1)) ++
      [String.mk ((ta.lineAt e.row).data.take e.col)]

/-- Modelled from the spec: the yank of a range is tagged line-wise exactly
when the range covers whole lines (head of a line through head of a later
line), otherwise character-wise. -/
def TextArea.mkRegister (ta : TextArea) (s e : Pos) : Register :=
  if s.row < e.row ∧ s.col = 0 ∧ e.col = 0 then
    ⟨YankKind.LineWise, (ta.lines.drop s.row).take (e.row - s.row)⟩
  else
    ⟨YankKind.CharacterWise, ta.textBetween s e⟩

/-- Remove the text between two ordered positions. -/
def TextArea.deleteRange (ta : TextArea) (s e : Pos) : TextArea :=
  let newLines :=
    if s.row = e.row then
      let line := ta.lineAt s.row
      ta.lines.set s.row (String.mk (line.data.take s.col ++ line.data.drop e.col))
    else
      ta.lines.take s.row ++
        [String.mk ((ta.lineAt s.row).data.take s.col ++ (ta.lineAt e.row).data.drop e.col)] ++
        ta.lines.drop (e.row + 1)
  { ta with lines := newLines }

/-- Modelled from the spec: copy stores the selected range in the register,
leaves the content unmodified, clears the selection and moves the cursor to
the start of the range. -/
def TextArea.copy (ta : TextArea) : TextArea :=
  match ta.anchor with
  | none => ta
  | some a =>
    let p := ta.clampPos a
    let q := ta.clampPos ta.cursor
    let s := if Pos.lePos p q then p else q
    let e := if Pos.lePos p q then q else p
    { ta with register := some (ta.mkRegister s e), anchor := none, cursor := s }

/-- Modelled from the spec: cut removes the selected range and stores it in
the register; the cursor moves to the start of the range. -/
def TextArea.cut (ta : TextArea) : TextArea :=
  match ta.anchor with
  | none => ta
  | some a =>
    let ta2 := ta.pushHistory
    let p := ta2.clampPos a
    let q := ta2.clampPos ta2.cursor
    let s := if Pos.lePos p q then p else q
    let e := if Pos.lePos p q then q else p
    let ta3 := ta2.deleteRange s e
    { ta3 with register := some (ta2.mkRegister s e), anchor := none, cursor := s }

/-- Modelled from the spec: paste splices character-wise content into the
current line immediately after the cursor column; line-wise content is
inserted as whole new lines immediately below the current line, and the
cursor moves to the head of the first inserted line. -/
def TextArea.paste (ta : TextArea) : TextArea :=
  let ta2 := ta.pushHistory
  match ta2.register with
  | none => ta2
  | some reg =>
    match reg.kind with
    | YankKind.LineWise =>
      match reg.content with
      | [] => ta2
      | l :: ls2 =>
        let r := ta2.cursor.row
        { ta2 with lines := ta2.lines.take (r + 1) ++ (l :: ls2) ++ ta2.lines.drop (r + 1),
                   cursor := ⟨r + 1, 0⟩ }
    | YankKind.CharacterWise =>
      let r := ta2.cursor.row
      let c := ta2.cursor.col
      let line := ta2.lineAt r
      let p := min (c + 1) line.length
      match reg.content with
      | [] => ta2
      | [seg] =>
        { ta2 with
            lines := ta2.lines.set r (String.mk (line.data.take p ++ seg.data ++ line.data.drop p)),
            cursor := ⟨r, p + seg.length⟩ }
      | seg :: rest =>
        let lastSeg := rest.getLastD (String.mk [])
        let mids := rest.dropLast
        { ta2 with
            lines := ta2.lines.take r ++
              [String.mk (line.data.take p ++ seg.data)] ++ mids ++
              [String.mk (lastSeg.data ++ line.data.drop p)] ++ ta2.lines.drop (r + 1),
            cursor := ⟨r + 1 + mids.length, lastSeg.length⟩ }

/-- Modelled from the spec: in Insert mode every token except Escape or
Ctrl-c is inserted verbatim at the cursor; a newline token splits the line;
other tokens are no-ops. -/
def TextArea.insertInput (ta : TextArea) (i : Input) : TextArea :=
  match i.key, i.ctrl with
  | Key.Char ch, false => ta.insertChar ch
  | Key.Enter, false => ta.insertNewline
  | _, _ => ta

/-- Engine state: the text area, the current mode and the pending token
(struct EditorState in editor_widget.rs). -/
structure EditorState where
  editor : TextArea
  mode : Mode
  pending : Input
  deriving DecidableEq

/-- Result of one transition (enum Transition in editor_widget.rs). -/
inductive Transition
  | Nop
  | Mode (m : Mode)
  | Pending (i : Input)
  | Quit
  deriving DecidableEq

/-- Trailing operator application of EditorState::transition: after a motion
arm falls through, a pending `y`/`d`/`c` operator is applied to the implicit
selection. -/
def applyOperator (e : TextArea) (m : Mode) : TextArea × Transition :=
  match m with
  | Mode.Operator c =>
    if c = 'y' then (e.copy, Transition.Mode Mode.Normal)
    else if c = 'd' then (e.cut, Transition.Mode Mode.Normal)
    else if c = 'c' then (e.cut, Transition.Mode Mode.Insert)
    else (e, Transition.Nop)
  | _ => (e, Transition.Nop)

/-- Does the key repeat the character of a pending operator (`yy`, `dd`, `cc`)? -/
def sameOpChar (k : Key) (m : Mode) : Bool :=
  match k, m with
  | Key.Char a, Mode.Operator b => a == b
  | _, _ => false

/-- Line selection performed by the repeated-operator arm (`yy`, `dd`, `cc`)
of EditorState::transition: select from the line head to the head of the
next line, or to the line end when on the last line. -/
def lineSelect (e : TextArea) : TextArea :=
  let e2 := (e.moveCursor CursorMove.Head).startSelection
  let cur := e2.cursor
  let e3 := e2.moveCursor CursorMove.Down
  if e3.cursor = cur then e3.moveCursor CursorMove.End else e3

/-- Non-Insert branch of EditorState::transition from editor_widget.rs: the
match arms for the Normal, Visual and Operator modes, in source order.
Scroll commands only move the viewport, which is not part of the embedded
state, so their arms leave the text area unchanged (but still fall through
to the pending-operator handling, as in the source). -/
def modalTransition (e : TextArea) (m : Mode) (pending : Input) (input : Input) :
    TextArea × Transition :=
  if input.key = Key.Char 'h' then
    applyOperator (e.moveCursor CursorMove.Back) m
  else if input.key = Key.Char 'j' then
    applyOperator (e.moveCursor CursorMove.Down) m
  else if input.key = Key.Char 'k' then
    applyOperator (e.moveCursor CursorMove.Up) m
  else if input.key = Key.Char 'l' then
    applyOperator (e.moveCursor CursorMove.Forward) m
  else if input.key = Key.Char 'w' then
    applyOperator (e.moveCursor CursorMove.WordForward) m
  else if input.ctrl = false ∧ input.key = Key.Char 'e' then
    let e2 := e.moveCursor CursorMove.WordEnd
    let e3 := match m with
      | Mode.Operator _ => e2.moveCursor CursorMove.Forward
      | _ => e2
    applyOperator e3 m
  else if input.ctrl = false ∧ input.key = Key.Char 'b' then
    applyOperator (e.moveCursor CursorMove.WordBack) m
  else if input.key = Key.Char '^' then
    applyOperator (e.moveCursor CursorMove.Head) m
  else if input.key = Key.Char '$' then
    applyOperator (e.moveCursor CursorMove.End) m
  else if input.key = Key.Char 'D' then
    (e.deleteLineByEnd, Transition.Mode Mode.Normal)
  else if input.key = Key.Char 'C' then
    (e.deleteLineByEnd.cancelSelection, Transition.Mode Mode.Insert)
  else if input.key = Key.Char 'p' then
    (e.paste, Transition.Mode Mode.Normal)
  else if input.ctrl = false ∧ input.key = Key.Char 'u' then
    (e.undo, Transition.Mode Mode.Normal)
  else if input.ctrl = true ∧ input.key = Key.Char 'r' then
    (e.redo, Transition.Mode Mode.Normal)
  else if input.key = Key.Char 'x' then
    (e.deleteNextChar, Transition.Mode Mode.Normal)
  else if input.key = Key.Char 'i' then
    (e.cancelSelection, Transition.Mode Mode.Insert)
  else if input.key = Key.Char 'a' then
    (e.cancelSelection.moveCursor CursorMove.Forward, Transition.Mode Mode.Insert)
  else if input.key = Key.Char 'A' then
    (e.cancelSelection.moveCursor CursorMove.End, Transition.Mode Mode.Insert)
  else if input.key = Key.Char 'o' then
    ((e.moveCursor CursorMove.End).insertNewline, Transition.Mode Mode.Insert)
  else if input.key = Key.Char 'O' then
    (((e.moveCursor CursorMove.Head).insertNewline).moveCursor CursorMove.Up,
      Transition.Mode Mode.Insert)
  else if input.key = Key.Char 'I' then
    (e.cancelSelection.moveCursor CursorMove.Head, Transition.Mode Mode.Insert)
  else if input.key = Key.Char 'q' then
    (e, Transition.Quit)
  else if input.ctrl = true ∧ input.key = Key.Char 'e' then
    applyOperator e m
  else if input.ctrl = true ∧ input.key = Key.Char 'y' then
    applyOperator e m
  else if input.ctrl = true ∧ input.key = Key.Char 'd' then
    applyOperator e m
  else if input.ctrl = true ∧ input.key = Key.Char 'u' then
    applyOperator e m
  else if input.ctrl = true ∧ input.key = Key.Char 'f' then
    applyOperator e m
  else if input.ctrl = true ∧ input.key = Key.Char 'b' then
    applyOperator e m
  else if m = Mode.Normal ∧ input.ctrl = false ∧ input.key = Key.Char 'v' then
    (e.startSelection, Transition.Mode Mode.Visual)
  else if m = Mode.Normal ∧ input.ctrl = false ∧ input.key = Key.Char 'V' then
    (((e.moveCursor CursorMove.Head).startSelection).moveCursor CursorMove.End,
      Transition.Mode Mode.Visual)
  else if m = Mode.Visual ∧
      (input.key = Key.Esc ∨ (input.ctrl = false ∧ input.key = Key.Char 'v')) then
    (e.cancelSelection, Transition.Mode Mode.Normal)
  else if input.key = Key.Char 'g' ∧ input.ctrl = false ∧
      pending.key = Key.Char 'g' ∧ pending.ctrl = false then
    applyOperator (e.moveCursor CursorMove.Top) m
  else if input.ctrl = false ∧ input.key = Key.Char 'G' then
    applyOperator (e.moveCursor CursorMove.Bottom) m
  else if input.ctrl = false ∧ sameOpChar input.key m = true then
    applyOperator (lineSelect e) m
  else
    match input.key, input.ctrl, m with
    | Key.Char 'y', false, Mode.Normal =>
      (e.startSelection, Transition.Mode (Mode.Operator 'y'))
    | Key.Char 'd', false, Mode.Normal =>
      (e.startSelection, Transition.Mode (Mode.Operator 'd'))
    | Key.Char 'c', false, Mode.Normal =>
      (e.startSelection, Transition.Mode (Mode.Operator 'c'))
    | Key.Char 'y', false, Mode.Visual =>
      ((e.moveCursor CursorMove.Forward).copy, Transition.Mode Mode.Normal)
    | Key.Char 'd', false, Mode.Visual =>
      ((e.moveCursor CursorMove.Forward).cut, Transition.Mode Mode.Normal)
    | Key.Char 'c', false, Mode.Visual =>
      ((e.moveCursor CursorMove.Forward).cut, Transition.Mode Mode.Insert)
    | _, _, _ => (e, Transition.Pending input)

/-- EditorState::transition from editor_widget.rs: Null input is a no-op;
Insert mode inserts or leaves on Escape / Ctrl-c; the remaining modes are
handled by `modalTransition`. -/
def transition (s : EditorState) (input : Input) : TextArea × Transition :=
  if input.key = Key.Null then (s.editor, Transition.Nop)
  else
    match s.mode with
    | Mode.Insert =>
      if input.key = Key.Esc ∨ (input.ctrl = true ∧ input.key = Key.Char 'c') then
        (s.editor, Transition.Mode Mode.Normal)
      else
        (s.editor.insertInput input, Transition.Mode Mode.Insert)
    | _ => modalTransition s.editor s.mode s.pending input

/-- EditorState::input from editor_widget.rs: applies the transition result
to the engine state; the returned Bool is true exactly on Quit. -/
def step (s : EditorState) (input : Input) : EditorState × Bool :=
  match transition s input with
  | (e2, Transition.Mode m) =>
    if s.mode ≠ m then (⟨e2, m, defaultInput⟩, false)
    else ({ s with editor := e2 }, false)
  | (e2, Transition.Nop) => ({ s with editor := e2 }, false)
  | (e2, Transition.Pending i) => (⟨e2, s.mode, i⟩, false)
  | (e2, Transition.Quit) => ({ s with editor := e2 }, true)

/-- Run a sequence of tokens through the engine. -/
def run (s : EditorState) : List Input → EditorState
  | [] => s
  | i :: rest => run (step s i).1 rest

/-- EditorState::text from editor_widget.rs: the final text is built by
pushing each buffer line onto an initially empty string. -/
def EditorState.text (s : EditorState) : String :=
  s.editor.lines.foldl (fun total l => total ++ l) (String.mk [])

/-- Engine state over the given lines and cursor, in Normal mode with no
pending token, empty selection, register and history. -/
def mkState (ls : List String) (cur : Pos) : EditorState :=
  ⟨⟨ls, cur, none, none, [], []⟩, Mode.Normal, defaultInput⟩

/-- Well-formedness of a cursor with respect to a line list: the row is a
valid line index and the column is at most the line length (column may equal
the line length, representing "past last character"). -/
def linesOk (ls : List String) (p : Pos) : Prop :=
  p.row < ls.length ∧ p.col ≤ (ls.getD p.row (String.mk [])).length

/-- Cursor bounds of a text area: 0 ≤ row < lineCount and
0 ≤ col ≤ length of the cursor's line. -/
def TextArea.cursorInBounds (ta : TextArea) : Prop :=
  linesOk ta.lines ta.cursor

/-- Structural invariant of the text area: the cursor is in bounds (which
forces at least one line) and every snapshot on the undo and redo stacks is
itself a well-formed buffer-cursor pair. -/
def TextArea.invariant (ta : TextArea) : Prop :=
  linesOk ta.lines ta.cursor ∧
    (∀ en ∈ ta.undoStack, linesOk en.1 en.2) ∧
    (∀ en ∈ ta.redoStack, linesOk en.1 en.2)

/-- The motion tokens of the state machine: h, j, k, l, w, b, e, ^, $, g
(gg via the pending token) and G. -/
def motionInputs : List Input :=
  [chr 'h', chr 'j', chr 'k', chr 'l', chr 'w', chr 'b', chr 'e',
   chr '^', chr '$', chr 'g', chr 'G']

/-! Helper lemmas -/

theorem runLen_le (k : CClass) (l : List Char) : runLen k l ≤ l.length := by
  induction l with
  | nil => simp [runLen]
  | cons ch rest ih =>
    simp only [runLen, List.length_cons]
    split
    · omega
    · omega

theorem wordForwardCol_le (cs : List Char) (c : Nat) :
    wordForwardCol cs c ≤ cs.length := by
  unfold wordForwardCol
  split
  · exact Nat.min_le_right _ _
  · exact Nat.min_le_right _ _

theorem wordBackCol_le_self (cs : List Char) (c : Nat) : wordBackCol cs c ≤ c := by
  unfold wordBackCol
  dsimp only
  split
  · exact Nat.zero_le _
  · omega

theorem wordEndCol_le (cs : List Char) (c : Nat) : wordEndCol cs c ≤ cs.length := by
  unfold wordEndCol
  dsimp only
  split
  · exact Nat.min_le_right _ _
  · rename_i ch rest heq
    have hle := runLen_le (classOf ch) (ch :: rest)
    have hlen : (cs.drop (c + 1 + runLen CClass.space (cs.drop (c + 1)))).length =
        cs.length - (c + 1 + runLen CClass.space (cs.drop (c + 1))) :=
      List.length_drop _ _
    rw [heq] at hlen
    simp only [List.length_cons] at hlen hle
    omega

theorem moveCursor_bounds (ta : TextArea) (m : CursorMove)
    (h : ta.cursorInBounds) : (ta.moveCursor m).cursorInBounds := by
  obtain ⟨h1, h2⟩ := h
  cases m with
  | Back => exact ⟨h1, le_trans (Nat.sub_le _ _) h2⟩
  | Forward => exact ⟨h1, Nat.min_le_right _ _⟩
  | Up => exact ⟨lt_of_le_of_lt (Nat.sub_le _ _) h1, Nat.min_le_right _ _⟩
  | Down =>
    refine ⟨?_, Nat.min_le_right _ _⟩
    show min (ta.cursor.row + 1) (ta.lines.length - 1) < ta.lines.length
    have := Nat.min_le_right (ta.cursor.row + 1) (ta.lines.length - 1)
    omega
  | Head => exact ⟨h1, Nat.zero_le _⟩
  | End => exact ⟨h1, le_refl _⟩
  | Top =>
    refine ⟨?_, Nat.min_le_right _ _⟩
    show 0 < ta.lines.length
    omega
  | Bottom =>
    refine ⟨?_, Nat.min_le_right _ _⟩
    show ta.lines.length - 1 < ta.lines.length
    omega
  | WordForward => exact ⟨h1, wordForwardCol_le _ _⟩
  | WordBack => exact ⟨h1, le_trans (wordBackCol_le_self _ _) h2⟩
  | WordEnd => exact ⟨h1, wordEndCol_le _ _⟩

theorem foldl_append_data (ls : List String) (acc : String) :
    (ls.foldl (fun total l => total ++ l) acc).data = acc.data ++ (ls.map String.data).flatten := by
  induction ls generalizing acc with
  | nil => simp
  | cons a as ih =>
    simp only [List.foldl_cons, ih, List.map_cons, List.flatten_cons]
    simp [String.data_append]

theorem getD_set_self (l : List String) (i : Nat) (x d : String) (h : i < l.length) :
    (l.set i x).getD i d = x := by
  rw [List.getD_eq_getElem?_getD, List.getElem?_set_self h, Option.getD_some]

theorem getD_append_sandwich (A B : List String) (x d : String) (i : Nat)
    (h : A.length = i) : ((A ++ [x]) ++ B).getD i d = x := by
  subst h
  rw [List.getD_eq_getElem?_getD, List.getElem?_append_left (by simp),
    List.getElem?_append_right (le_refl _)]
  simp

theorem lePos_row_le (a b : Pos) (h : Pos.lePos a b = true) : a.row ≤ b.row := by
  unfold Pos.lePos at h
  simp only [Bool.or_eq_true, Bool.and_eq_true, Nat.blt_eq, Nat.ble_eq, beq_iff_eq] at h
  omega

theorem lePos_false_row_le (a b : Pos) (h : ¬ Pos.lePos a b = true) : b.row ≤ a.row := by
  unfold Pos.lePos at h
  simp only [Bool.or_eq_true, Bool.and_eq_true, Nat.blt_eq, Nat.ble_eq, beq_iff_eq,
    not_or, not_and] at h
  omega

theorem moveCursor_inv (ta : TextArea) (m : CursorMove) (h : ta.invariant) :
    (ta.moveCursor m).invariant := by
  obtain ⟨hc, hu, hr⟩ := h
  have hb := moveCursor_bounds ta m hc
  cases m <;> exact ⟨hb, hu, hr⟩

theorem startSelection_inv (ta : TextArea) (h : ta.invariant) :
    ta.startSelection.invariant := h

theorem cancelSelection_inv (ta : TextArea) (h : ta.invariant) :
    ta.cancelSelection.invariant := h

theorem pushHistory_inv (ta : TextArea) (h : ta.invariant) :
    ta.pushHistory.invariant := by
  obtain ⟨hc, hu, hr⟩ := h
  refine ⟨hc, ?_, ?_⟩
  · intro en hen
    rcases List.mem_cons.1 hen with h1 | h2
    · subst h1; exact hc
    · exact hu _ h2
  · intro en hen
    exact (List.not_mem_nil en hen).elim

theorem undo_inv (ta : TextArea) (h : ta.invariant) : ta.undo.invariant := by
  obtain ⟨hc, hu, hr⟩ := h
  unfold TextArea.undo
  split
  · exact ⟨hc, hu, hr⟩
  · rename_i ls cur rest heq
    refine ⟨?_, ?_, ?_⟩
    · exact hu (ls, cur) (by rw [heq]; exact List.mem_cons_self _ _)
    · intro en hen
      exact hu en (by rw [heq]; exact List.mem_cons_of_mem _ hen)
    · intro en hen
      rcases List.mem_cons.1 hen with h1 | h2
      · subst h1; exact hc
      · exact hr _ h2

theorem redo_inv (ta : TextArea) (h : ta.invariant) : ta.redo.invariant := by
  obtain ⟨hc, hu, hr⟩ := h
  unfold TextArea.redo
  split
  · exact ⟨hc, hu, hr⟩
  · rename_i ls cur rest heq
    refine ⟨?_, ?_, ?_⟩
    · exact hr (ls, cur) (by rw [heq]; exact List.mem_cons_self _ _)
    · intro en hen
      rcases List.mem_cons.1 hen with h1 | h2
      · subst h1; exact hc
      · exact hu _ h2
    · intro en hen
      exact hr en (by rw [heq]; exact List.mem_cons_of_mem _ hen)

theorem strLen (s : String) : s.length = s.data.length := rfl

theorem clampPos_ok (ta : TextArea) (p : Pos) (h : 0 < ta.lines.length) :
    linesOk ta.lines (ta.clampPos p) := by
  refine ⟨?_, ?_⟩
  · show min p.row (ta.lines.length - 1) < ta.lines.length
    have := Nat.min_le_right p.row (ta.lines.length - 1)
    omega
  · exact Nat.min_le_right _ _

theorem deleteLineByEnd_inv (ta : TextArea) (h : ta.invariant) :
    ta.deleteLineByEnd.invariant := by
  obtain ⟨ls, cur, anc, reg, us, rs⟩ := ta
  obtain ⟨⟨h1x, h2x⟩, hu, hr⟩ := pushHistory_inv _ h
  have h1 : cur.row < ls.length := h1x
  have h2 : cur.col ≤ (ls.getD cur.row (String.mk [])).length := h2x
  refine ⟨⟨?_, ?_⟩, hu, hr⟩
  · show cur.row <
      (ls.set cur.row (String.mk ((ls.getD cur.row (String.mk [])).data.take cur.col))).length
    rw [List.length_set]
    exact h1
  · show cur.col ≤
      ((ls.set cur.row (String.mk ((ls.getD cur.row (String.mk [])).data.take cur.col))).getD
        cur.row (String.mk [])).length
    rw [getD_set_self _ _ _ _ h1, strLen]
    show cur.col ≤ ((ls.getD cur.row (String.mk [])).data.take cur.col).length
    rw [List.length_take]
    have h2' : cur.col ≤ (ls.getD cur.row (String.mk [])).data.length := h2
    omega

theorem deleteNextChar_inv (ta : TextArea) (h : ta.invariant) :
    ta.deleteNextChar.invariant := by
  obtain ⟨ls, cur, anc, reg, us, rs⟩ := ta
  obtain ⟨⟨h1x, h2x⟩, hu, hr⟩ := pushHistory_inv _ h
  have h1 : cur.row < ls.length := h1x
  have h2 : cur.col ≤ (ls.getD cur.row (String.mk [])).length := h2x
  refine ⟨⟨?_, ?_⟩, hu, hr⟩
  · show cur.row < (ls.set cur.row (String.mk ((ls.getD cur.row (String.mk [])).data.take cur.col ++
      (ls.getD cur.row (String.mk [])).data.drop (cur.col + 1)))).length
    rw [List.length_set]
    exact h1
  · show cur.col ≤ ((ls.set cur.row (String.mk ((ls.getD cur.row (String.mk [])).data.take cur.col ++
      (ls.getD cur.row (String.mk [])).data.drop (cur.col + 1)))).getD cur.row (String.mk [])).length
    rw [getD_set_self _ _ _ _ h1, strLen]
    show cur.col ≤ ((ls.getD cur.row (String.mk [])).data.take cur.col ++
      (ls.getD cur.row (String.mk [])).data.drop (cur.col + 1)).length
    rw [List.length_append, List.length_take, List.length_drop]
    have h2' : cur.col ≤ (ls.getD cur.row (String.mk [])).data.length := h2
    omega

theorem insertChar_inv (ta : TextArea) (ch : Char) (h : ta.invariant) :
    (ta.insertChar ch).invariant := by
  obtain ⟨ls, cur, anc, reg, us, rs⟩ := ta
  obtain ⟨⟨h1x, h2x⟩, hu, hr⟩ := pushHistory_inv _ h
  have h1 : cur.row < ls.length := h1x
  have h2 : cur.col ≤ (ls.getD cur.row (String.mk [])).length := h2x
  refine ⟨⟨?_, ?_⟩, hu, hr⟩
  · show cur.row < (ls.set cur.row (String.mk ((ls.getD cur.row (String.mk [])).data.take cur.col ++
      ch :: (ls.getD cur.row (String.mk [])).data.drop cur.col))).length
    rw [List.length_set]
    exact h1
  · show min cur.col (ls.getD cur.row (String.mk [])).length + 1 ≤
      ((ls.set cur.row (String.mk ((ls.getD cur.row (String.mk [])).data.take cur.col ++
        ch :: (ls.getD cur.row (String.mk [])).data.drop cur.col))).getD cur.row (String.mk [])).length
    rw [getD_set_self _ _ _ _ h1, strLen]
    show min cur.col (ls.getD cur.row (String.mk [])).length + 1 ≤
      ((ls.getD cur.row (String.mk [])).data.take cur.col ++
        ch :: (ls.getD cur.row (String.mk [])).data.drop cur.col).length
    rw [List.length_append, List.length_take, List.length_cons, List.length_drop, strLen]
    have h2' : cur.col ≤ (ls.getD cur.row (String.mk [])).data.length := h2
    omega

theorem insertNewline_inv (ta : TextArea) (h : ta.invariant) :
    ta.insertNewline.invariant := by
  obtain ⟨ls, cur, anc, reg, us, rs⟩ := ta
  obtain ⟨⟨h1x, h2x⟩, hu, hr⟩ := pushHistory_inv _ h
  have h1 : cur.row < ls.length := h1x
  have h2 : cur.col ≤ (ls.getD cur.row (String.mk [])).length := h2x
  refine ⟨⟨?_, ?_⟩, hu, hr⟩
  · show cur.row + 1 <
      ((ls.take cur.row ++ [String.mk ((ls.getD cur.row (String.mk [])).data.take cur.col),
        String.mk ((ls.getD cur.row (String.mk [])).data.drop cur.col)]) ++
        ls.drop (cur.row + 1)).length
    rw [List.length_append, List.length_append, List.length_take, List.length_drop]
    simp only [List.length_cons, List.length_nil]
    omega
  · exact Nat.zero_le _

theorem copy_inv (ta : TextArea) (h : ta.invariant) : ta.copy.invariant := by
  obtain ⟨⟨h1, h2⟩, hu, hr⟩ := h
  unfold TextArea.copy
  split
  · exact ⟨⟨h1, h2⟩, hu, hr⟩
  · dsimp only
    refine ⟨?_, hu, hr⟩
    split
    · refine clampPos_ok _ _ ?_
      show 0 < ta.lines.length
      omega
    · refine clampPos_ok _ _ ?_
      show 0 < ta.lines.length
      omega

theorem deleteRange_linesOk (ta : TextArea) (s e : Pos)
    (hs : linesOk ta.lines s) (he : linesOk ta.lines e) :
    linesOk (ta.deleteRange s e).lines s := by
  obtain ⟨hs1, hs2⟩ := hs
  obtain ⟨he1, he2⟩ := he
  have hs2x : s.col ≤ (ta.lines.getD s.row (String.mk [])).data.length := hs2
  unfold TextArea.deleteRange
  dsimp only [TextArea.lineAt]
  split
  · refine ⟨?_, ?_⟩
    · rw [List.length_set]
      exact hs1
    · rw [getD_set_self _ _ _ _ hs1, strLen]
      simp only [List.length_append, List.length_take, List.length_drop]
      omega
  · have hA : (ta.lines.take s.row).length = s.row := by
      rw [List.length_take]
      omega
    refine ⟨?_, ?_⟩
    · simp only [List.length_append, List.length_take, List.length_drop,
        List.length_cons, List.length_nil]
      omega
    · rw [getD_append_sandwich _ _ _ _ _ hA, strLen]
      simp only [List.length_append, List.length_take, List.length_drop]
      omega

theorem cut_inv (ta : TextArea) (h : ta.invariant) : ta.cut.invariant := by
  obtain ⟨⟨h1, h2⟩, hu, hr⟩ := h
  unfold TextArea.cut
  split
  · exact ⟨⟨h1, h2⟩, hu, hr⟩
  · dsimp only
    obtain ⟨hcp, hup, hrp⟩ := pushHistory_inv ta ⟨⟨h1, h2⟩, hu, hr⟩
    have hn : 0 < ta.pushHistory.lines.length := by
      show 0 < ta.lines.length
      omega
    refine ⟨?_, hup, hrp⟩
    split
    · exact deleteRange_linesOk _ _ _ (clampPos_ok _ _ hn) (clampPos_ok _ _ hn)
    · exact deleteRange_linesOk _ _ _ (clampPos_ok _ _ hn) (clampPos_ok _ _ hn)

theorem paste_inv (ta : TextArea) (h : ta.invariant) : ta.paste.invariant := by
  obtain ⟨ls, cur, anc, reg, us, rs⟩ := ta
  obtain ⟨⟨h1x, h2x⟩, hu, hr⟩ := pushHistory_inv _ h
  have h1 : cur.row < ls.length := h1x
  have h2 : cur.col ≤ (ls.getD cur.row (String.mk [])).data.length := h2x
  unfold TextArea.paste
  dsimp only [TextArea.pushHistory, TextArea.lineAt]
  split
  · exact ⟨⟨h1, h2⟩, hu, hr⟩
  · split
    · -- line-wise
      split
      · exact ⟨⟨h1, h2⟩, hu, hr⟩
      · refine ⟨⟨?_, Nat.zero_le _⟩, hu, hr⟩
        simp only [List.length_append, List.length_take, List.length_drop, List.length_cons]
        omega
    · -- character-wise
      split
      · exact ⟨⟨h1, h2⟩, hu, hr⟩
      · -- single segment
        refine ⟨⟨?_, ?_⟩, hu, hr⟩
        · rw [List.length_set]
          exact h1
        · rw [getD_set_self _ _ _ _ h1, strLen]
          simp only [List.length_append, List.length_take, List.length_drop, strLen]
          omega
      · -- several segments
        rename_i x1 seg rest hne heq
        have hA : ((ls.take cur.row ++ [String.mk (List.take
            (min (cur.col + 1) (ls.getD cur.row (String.mk [])).length)
            (ls.getD cur.row (String.mk [])).data ++ seg.data)]) ++
            rest.dropLast).length = cur.row + 1 + rest.dropLast.length := by
          simp only [List.length_append, List.length_take, List.length_cons, List.length_nil]
          omega
        refine ⟨⟨?_, ?_⟩, hu, hr⟩
        · simp only [List.length_append, List.length_take, List.length_drop,
            List.length_cons, List.length_nil]
          omega
        · rw [getD_append_sandwich _ _ _ _ _ hA]
          simp only [strLen, List.length_append]
          omega

theorem insertInput_inv (ta : TextArea) (i : Input) (h : ta.invariant) :
    (ta.insertInput i).invariant := by
  unfold TextArea.insertInput
  split
  · exact insertChar_inv _ _ h
  · exact insertNewline_inv _ h
  · exact h

theorem lineSelect_inv (e : TextArea) (h : e.invariant) : (lineSelect e).invariant := by
  unfold lineSelect
  dsimp only
  split
  · exact moveCursor_inv _ _ (moveCursor_inv _ _ (startSelection_inv _ (moveCursor_inv _ _ h)))
  · exact moveCursor_inv _ _ (startSelection_inv _ (moveCursor_inv _ _ h))

theorem applyOperator_inv (e : TextArea) (m : Mode) (h : e.invariant) :
    (applyOperator e m).1.invariant := by
  unfold applyOperator
  split
  · split_ifs
    · exact copy_inv _ h
    · exact cut_inv _ h
    · exact cut_inv _ h
    · exact h
  · exact h

theorem modalTransition_inv (e : TextArea) (m : Mode) (pending input : Input)
    (h : e.invariant) : (modalTransition e m pending input).1.invariant := by
  unfold modalTransition
  by_cases c1 : input.key = Key.Char 'h'
  · rw [if_pos c1]
    exact applyOperator_inv _ _ (moveCursor_inv _ _ h)
  rw [if_neg c1]
  by_cases c2 : input.key = Key.Char 'j'
  · rw [if_pos c2]
    exact applyOperator_inv _ _ (moveCursor_inv _ _ h)
  rw [if_neg c2]
  by_cases c3 : input.key = Key.Char 'k'
  · rw [if_pos c3]
    exact applyOperator_inv _ _ (moveCursor_inv _ _ h)
  rw [if_neg c3]
  by_cases c4 : input.key = Key.Char 'l'
  · rw [if_pos c4]
    exact applyOperator_inv _ _ (moveCursor_inv _ _ h)
  rw [if_neg c4]
  by_cases c5 : input.key = Key.Char 'w'
  · rw [if_pos c5]
    exact applyOperator_inv _ _ (moveCursor_inv _ _ h)
  rw [if_neg c5]
  by_cases c6 : input.ctrl = false ∧ input.key = Key.Char 'e'
  · rw [if_pos c6]
    dsimp only
    apply applyOperator_inv
    rcases m with _ | _ | _ | c <;>
      first
        | exact moveCursor_inv _ _ (moveCursor_inv _ _ h)
        | exact moveCursor_inv _ _ h
  rw [if_neg c6]
  by_cases c7 : input.ctrl = false ∧ input.key = Key.Char 'b'
  · rw [if_pos c7]
    exact applyOperator_inv _ _ (moveCursor_inv _ _ h)
  rw [if_neg c7]
  by_cases c8 : input.key = Key.Char '^'
  · rw [if_pos c8]
    exact applyOperator_inv _ _ (moveCursor_inv _ _ h)
  rw [if_neg c8]
  by_cases c9 : input.key = Key.Char '$'
  · rw [if_pos c9]
    exact applyOperator_inv _ _ (moveCursor_inv _ _ h)
  rw [if_neg c9]
  by_cases c10 : input.key = Key.Char 'D'
  · rw [if_pos c10]
    exact deleteLineByEnd_inv _ h
  rw [if_neg c10]
  by_cases c11 : input.key = Key.Char 'C'
  · rw [if_pos c11]
    exact cancelSelection_inv _ (deleteLineByEnd_inv _ h)
  rw [if_neg c11]
  by_cases c12 : input.key = Key.Char 'p'
  · rw [if_pos c12]
    exact paste_inv _ h
  rw [if_neg c12]
  by_cases c13 : input.ctrl = false ∧ input.key = Key.Char 'u'
  · rw [if_pos c13]
    exact undo_inv _ h
  rw [if_neg c13]
  by_cases c14 : input.ctrl = true ∧ input.key = Key.Char 'r'
  · rw [if_pos c14]
    exact redo_inv _ h
  rw [if_neg c14]
  by_cases c15 : input.key = Key.Char 'x'
  · rw [if_pos c15]
    exact deleteNextChar_inv _ h
  rw [if_neg c15]
  by_cases c16 : input.key = Key.Char 'i'
  · rw [if_pos c16]
    exact cancelSelection_inv _ h
  rw [if_neg c16]
  by_cases c17 : input.key = Key.Char 'a'
  · rw [if_pos c17]
    exact moveCursor_inv _ _ (cancelSelection_inv _ h)
  rw [if_neg c17]
  by_cases c18 : input.key = Key.Char 'A'
  · rw [if_pos c18]
    exact moveCursor_inv _ _ (cancelSelection_inv _ h)
  rw [if_neg c18]
  by_cases c19 : input.key = Key.Char 'o'
  · rw [if_pos c19]
    exact insertNewline_inv _ (moveCursor_inv _ _ h)
  rw [if_neg c19]
  by_cases c20 : input.key = Key.Char 'O'
  · rw [if_pos c20]
    exact moveCursor_inv _ _ (insertNewline_inv _ (moveCursor_inv _ _ h))
  rw [if_neg c20]
  by_cases c21 : input.key = Key.Char 'I'
  · rw [if_pos c21]
    exact moveCursor_inv _ _ (cancelSelection_inv _ h)
  rw [if_neg c21]
  by_cases c22 : input.key = Key.Char 'q'
  · rw [if_pos c22]
    exact h
  rw [if_neg c22]
  by_cases c23 : input.ctrl = true ∧ input.key = Key.Char 'e'
  · rw [if_pos c23]
    exact applyOperator_inv _ _ h
  rw [if_neg c23]
  by_cases c24 : input.ctrl = true ∧ input.key = Key.Char 'y'
  · rw [if_pos c24]
    exact applyOperator_inv _ _ h
  rw [if_neg c24]
  by_cases c25 : input.ctrl = true ∧ input.key = Key.Char 'd'
  · rw [if_pos c25]
    exact applyOperator_inv _ _ h
  rw [if_neg c25]
  by_cases c26 : input.ctrl = true ∧ input.key = Key.Char 'u'
  · rw [if_pos c26]
    exact applyOperator_inv _ _ h
  rw [if_neg c26]
  by_cases c27 : input.ctrl = true ∧ input.key = Key.Char 'f'
  · rw [if_pos c27]
    exact applyOperator_inv _ _ h
  rw [if_neg c27]
  by_cases c28 : input.ctrl = true ∧ input.key = Key.Char 'b'
  · rw [if_pos c28]
    exact applyOperator_inv _ _ h
  rw [if_neg c28]
  by_cases c29 : m = Mode.Normal ∧ input.ctrl = false ∧ input.key = Key.Char 'v'
  · rw [if_pos c29]
    exact startSelection_inv _ h
  rw [if_neg c29]
  by_cases c30 : m = Mode.Normal ∧ input.ctrl = false ∧ input.key = Key.Char 'V'
  · rw [if_pos c30]
    exact moveCursor_inv _ _ (startSelection_inv _ (moveCursor_inv _ _ h))
  rw [if_neg c30]
  by_cases c31 : m = Mode.Visual ∧ (input.key = Key.Esc ∨ (input.ctrl = false ∧ input.key = Key.Char 'v'))
  · rw [if_pos c31]
    exact cancelSelection_inv _ h
  rw [if_neg c31]
  by_cases c32 : input.key = Key.Char 'g' ∧ input.ctrl = false ∧ pending.key = Key.Char 'g' ∧ pending.ctrl = false
  · rw [if_pos c32]
    exact applyOperator_inv _ _ (moveCursor_inv _ _ h)
  rw [if_neg c32]
  by_cases c33 : input.ctrl = false ∧ input.key = Key.Char 'G'
  · rw [if_pos c33]
    exact applyOperator_inv _ _ (moveCursor_inv _ _ h)
  rw [if_neg c33]
  by_cases c34 : input.ctrl = false ∧ sameOpChar input.key m = true
  · rw [if_pos c34]
    exact applyOperator_inv _ _ (lineSelect_inv _ h)
  rw [if_neg c34]
  split <;>
    first
      | exact startSelection_inv _ h
      | exact copy_inv _ (moveCursor_inv _ _ h)
      | exact cut_inv _ (moveCursor_inv _ _ h)

theorem transition_inv (s : EditorState) (i : Input) (h : s.editor.invariant) :
    (transition s i).1.invariant := by
  obtain ⟨e, m, p⟩ := s
  unfold transition
  dsimp only
  by_cases hnull : i.key = Key.Null
  · rw [if_pos hnull]
    exact h
  · rw [if_neg hnull]
    cases m
    · exact modalTransition_inv _ _ _ _ h
    · by_cases hesc : i.key = Key.Esc ∨ (i.ctrl = true ∧ i.key = Key.Char 'c')
      · rw [if_pos hesc]
        exact h
      · rw [if_neg hesc]
        exact insertInput_inv _ _ h
    · exact modalTransition_inv _ _ _ _ h
    · exact modalTransition_inv _ _ _ _ h

theorem step_editor_eq (s : EditorState) (i : Input) :
    ((step s i).1).editor = (transition s i).1 := by
  unfold step
  rcases htr : transition s i with ⟨e2, t⟩
  cases t
  · rfl
  · dsimp only
    split_ifs <;> rfl
  · rfl
  · rfl

theorem step_inv (s : EditorState) (i : Input) (h : s.editor.invariant) :
    ((step s i).1).editor.invariant := by
  rw [step_editor_eq]
  exact transition_inv s i h

theorem run_inv (s : EditorState) (inputs : List Input) (h : s.editor.invariant) :
    (run s inputs).editor.invariant := by
  induction inputs generalizing s with
  | nil => exact h
  | cons a rest ih => exact ih _ (step_inv s a h)

theorem cut_then_undo_lines (ta : TextArea) (a : Pos) (h : ta.anchor = some a) :
    (ta.cut.undo).lines = ta.lines := by
  obtain ⟨ls, cur, anc, reg, us, rs⟩ := ta
  dsimp only at h
  subst h
  rfl

theorem lineSelect_anchor (e : TextArea) :
    (lineSelect e).anchor = some ((e.moveCursor CursorMove.Head).startSelection).cursor := by
  unfold lineSelect
  dsimp only
  split <;> rfl

theorem lineSelect_lines (e : TextArea) : (lineSelect e).lines = e.lines := by
  unfold lineSelect
  dsimp only
  split <;> rfl

theorem modalTransition_g (e : TextArea) (p : Input) :
    modalTransition e Mode.Normal p (chr 'g') =
      if p.key = Key.Char 'g' ∧ p.ctrl = false
      then (e.moveCursor CursorMove.Top, Transition.Nop)
      else (e, Transition.Pending (chr 'g')) := by
  show (if (chr 'g').key = Key.Char 'g' ∧ (chr 'g').ctrl = false ∧
      p.key = Key.Char 'g' ∧ p.ctrl = false
    then applyOperator (e.moveCursor CursorMove.Top) Mode.Normal
    else (e, Transition.Pending (chr 'g'))) = _
  by_cases hp : p.key = Key.Char 'g' ∧ p.ctrl = false
  · rw [if_pos ⟨rfl, rfl, hp.1, hp.2⟩, if_pos hp]
    rfl
  · rw [if_neg (fun hc => hp ⟨hc.2.2.1, hc.2.2.2⟩), if_neg hp]

theorem step_g (e : TextArea) (p : Input) :
    step ⟨e, Mode.Normal, p⟩ (chr 'g') =
      if p.key = Key.Char 'g' ∧ p.ctrl = false
      then ((⟨e.moveCursor CursorMove.Top, Mode.Normal, p⟩ : EditorState), false)
      else ((⟨e, Mode.Normal, chr 'g'⟩ : EditorState), false) := by
  have ht : transition ⟨e, Mode.Normal, p⟩ (chr 'g') =
      if p.key = Key.Char 'g' ∧ p.ctrl = false
      then (e.moveCursor CursorMove.Top, Transition.Nop)
      else (e, Transition.Pending (chr 'g')) := modalTransition_g e p
  unfold step
  rw [ht]
  by_cases hp : p.key = Key.Char 'g' ∧ p.ctrl = false
  · rw [if_pos hp, if_pos hp]
  · rw [if_neg hp, if_neg hp]

/-! Claim theorems -/

/-- C1 (counterexample): at the concrete two-line buffer ["a", "b"], the
text retrieved by the host is "ab", not the newline-joined "a\nb", so the
claim that EditorState::text joins the lines with newline separators fails. -/
theorem text_newline_join_counterexample :
    ¬ ((mkState ["a", "b"] ⟨0, 0⟩).text =
        String.intercalate (String.mk ['\n']) (mkState ["a", "b"] ⟨0, 0⟩).editor.lines) := by
  decide

/-- C1 (amended): for every engine state, the text the host retrieves
(EditorState::text) is the concatenation of the buffer lines with no
separator: its character data is the flattening of the lines' data. -/
theorem text_concatenates_lines (s : EditorState) :
    s.text.data = (s.editor.lines.map String.data).flatten := by
  have h := foldl_append_data s.editor.lines (String.mk [])
  simpa [EditorState.text] using h

/-- C2 (counterexample): starting from an empty buffer in Normal mode, the
token sequence i, h, e, l, l, o, Escape does not leave the cursor at
column 4 (it is at column 5), so the scenario as claimed fails. -/
theorem scenario_insert_hello_col4_counterexample :
    ¬ (let s := run (mkState [String.mk []] ⟨0, 0⟩)
          [chr 'i', chr 'h', chr 'e', chr 'l', chr 'l', chr 'o', escInput]
       s.editor.lines = ["hello"] ∧ s.mode = Mode.Normal ∧ s.editor.cursor.col = 4) := by
  decide

/-- C2 (amended): starting from an empty buffer in Normal mode, feeding the
token sequence i, h, e, l, l, o, Escape yields buffer ["hello"], mode
Normal, and cursor at column 5 (Escape does not move the cursor back). -/
theorem scenario_insert_hello :
    (run (mkState [String.mk []] ⟨0, 0⟩)
        [chr 'i', chr 'h', chr 'e', chr 'l', chr 'l', chr 'o', escInput]).editor.lines =
      ["hello"] ∧
    (run (mkState [String.mk []] ⟨0, 0⟩)
        [chr 'i', chr 'h', chr 'e', chr 'l', chr 'l', chr 'o', escInput]).mode =
      Mode.Normal ∧
    (run (mkState [String.mk []] ⟨0, 0⟩)
        [chr 'i', chr 'h', chr 'e', chr 'l', chr 'l', chr 'o', escInput]).editor.cursor =
      ⟨0, 5⟩ := by
  decide

/-- C3: with buffer ["foo", "bar"] and cursor at (0, 0) in Normal mode,
y, y stores LineWise "foo" in the register, leaves the buffer unchanged and
returns to Normal; a following p inserts the register line below the current
line, giving ["foo", "foo", "bar"] with the cursor at the head of the first
inserted line. -/
theorem scenario_yank_line_paste :
    (let s := run (mkState ["foo", "bar"] ⟨0, 0⟩) [chr 'y', chr 'y']
     s.editor.register = some ⟨YankKind.LineWise, ["foo"]⟩ ∧
       s.editor.lines = ["foo", "bar"] ∧ s.mode = Mode.Normal) ∧
    (let s := run (mkState ["foo", "bar"] ⟨0, 0⟩) [chr 'y', chr 'y', chr 'p']
     s.editor.lines = ["foo", "foo", "bar"] ∧ s.editor.cursor = ⟨1, 0⟩) := by
  decide

/-- C4: with buffer ["hello world"] and cursor at column 0 in Normal mode,
d, w deletes "hello " (from the position at operator entry to the
word-forward target), leaving buffer ["world"], register CharacterWise
"hello ", and mode Normal. -/
theorem scenario_delete_word :
    (run (mkState ["hello world"] ⟨0, 0⟩) [chr 'd', chr 'w']).editor.lines = ["world"] ∧
    (run (mkState ["hello world"] ⟨0, 0⟩) [chr 'd', chr 'w']).editor.register =
      some ⟨YankKind.CharacterWise, ["hello "]⟩ ∧
    (run (mkState ["hello world"] ⟨0, 0⟩) [chr 'd', chr 'w']).mode = Mode.Normal := by
  decide

/-- C5: with buffer ["abc"] and cursor at column 0 in Normal mode, the
sequence v, l, l, y advances the cursor one position forward before copying
(the copied range "abc" includes the third character), stores CharacterWise
"abc" in the register, clears the selection, leaves the buffer unchanged and
returns to Normal mode. -/
theorem scenario_visual_yank_inclusive :
    (run (mkState ["abc"] ⟨0, 0⟩) [chr 'v', chr 'l', chr 'l', chr 'y']).editor.register =
      some ⟨YankKind.CharacterWise, ["abc"]⟩ ∧
    (run (mkState ["abc"] ⟨0, 0⟩) [chr 'v', chr 'l', chr 'l', chr 'y']).editor.anchor = none ∧
    (run (mkState ["abc"] ⟨0, 0⟩) [chr 'v', chr 'l', chr 'l', chr 'y']).editor.lines = ["abc"] ∧
    (run (mkState ["abc"] ⟨0, 0⟩) [chr 'v', chr 'l', chr 'l', chr 'y']).mode = Mode.Normal := by
  decide

/-- C6 (counterexample): with buffer ["foo", "bar"] and cursor at (0, 2),
the mutating command dd followed by u restores the buffer but leaves the
cursor at (1, 0), not at its pre-command position (0, 2): the round-trip
claim fails for dd. -/
theorem undo_dd_cursor_counterexample :
    ¬ (let s := run (mkState ["foo", "bar"] ⟨0, 2⟩) [chr 'd', chr 'd', chr 'u']
       s.editor.lines = ["foo", "bar"] ∧ s.editor.cursor = ⟨0, 2⟩) := by
  decide

/-- C6 (amended): performing x, D, C, p, or an Insert-mode insertion, then
u, restores both the buffer content and the cursor exactly; for dd-style
operator application and visual cut, u restores the buffer content exactly,
but the cursor is restored to the snapshot taken at the moment of mutation
(after the command's own cursor adjustments), not necessarily the
pre-command cursor. -/
theorem undo_restores_snapshot :
    (∀ (e : TextArea) (p : Input),
      (run ⟨e, Mode.Normal, p⟩ [chr 'x', chr 'u']).editor.lines = e.lines ∧
      (run ⟨e, Mode.Normal, p⟩ [chr 'x', chr 'u']).editor.cursor = e.cursor) ∧
    (∀ (e : TextArea) (p : Input),
      (run ⟨e, Mode.Normal, p⟩ [chr 'D', chr 'u']).editor.lines = e.lines ∧
      (run ⟨e, Mode.Normal, p⟩ [chr 'D', chr 'u']).editor.cursor = e.cursor) ∧
    (∀ (e : TextArea) (p : Input),
      (run ⟨e, Mode.Normal, p⟩ [chr 'C', escInput, chr 'u']).editor.lines = e.lines ∧
      (run ⟨e, Mode.Normal, p⟩ [chr 'C', escInput, chr 'u']).editor.cursor = e.cursor) ∧
    (∀ (e : TextArea) (p : Input),
      (run ⟨e, Mode.Normal, p⟩ [chr 'p', chr 'u']).editor.lines = e.lines ∧
      (run ⟨e, Mode.Normal, p⟩ [chr 'p', chr 'u']).editor.cursor = e.cursor) ∧
    (∀ (e : TextArea) (p : Input) (ch : Char),
      (run ⟨e, Mode.Insert, p⟩ [chr ch, escInput, chr 'u']).editor.lines = e.lines ∧
      (run ⟨e, Mode.Insert, p⟩ [chr ch, escInput, chr 'u']).editor.cursor = e.cursor) ∧
    (∀ (e : TextArea) (p : Input),
      (run ⟨e, Mode.Normal, p⟩ [chr 'd', chr 'd', chr 'u']).editor.lines = e.lines) ∧
    (∀ (e : TextArea) (p : Input) (a : Pos), e.anchor = some a →
      (run ⟨e, Mode.Visual, p⟩ [chr 'd', chr 'u']).editor.lines = e.lines) := by
  refine ⟨?_, ?_, ?_, ?_, ?_, ?_, ?_⟩
  · intro e p
    exact ⟨rfl, rfl⟩
  · intro e p
    exact ⟨rfl, rfl⟩
  · intro e p
    exact ⟨rfl, rfl⟩
  · intro e p
    obtain ⟨ls, cur, anc, reg, us, rs⟩ := e
    rcases reg with _ | ⟨k, content⟩
    · exact ⟨rfl, rfl⟩
    · cases k
      · rcases content with _ | ⟨s1, rest⟩
        · exact ⟨rfl, rfl⟩
        · rcases rest with _ | ⟨s2, rest2⟩
          · exact ⟨rfl, rfl⟩
          · exact ⟨rfl, rfl⟩
      · rcases content with _ | ⟨s1, rest⟩
        · exact ⟨rfl, rfl⟩
        · exact ⟨rfl, rfl⟩
  · intro e p ch
    exact ⟨rfl, rfl⟩
  · intro e p
    show ((lineSelect (e.startSelection)).cut.undo).lines = e.lines
    rw [cut_then_undo_lines _ _ (lineSelect_anchor _), lineSelect_lines]
    rfl
  · intro e p a ha
    obtain ⟨ls, cur, anc, reg, us, rs⟩ := e
    dsimp only at ha
    subst ha
    rfl

/-- Witness for C6: the visual-cut clause applied at the concrete state
with buffer ["ab"], anchor (0, 0), in Visual mode. -/
theorem undo_restores_snapshot_witness :
    (run ⟨⟨["ab"], ⟨0, 0⟩, some ⟨0, 0⟩, none, [], []⟩, Mode.Visual, defaultInput⟩
      [chr 'd', chr 'u']).editor.lines = ["ab"] :=
  undo_restores_snapshot.2.2.2.2.2.2 ⟨["ab"], ⟨0, 0⟩, some ⟨0, 0⟩, none, [], []⟩
    defaultInput ⟨0, 0⟩ rfl

/-- C7: in Normal mode, every motion token (h, j, k, l, w, b, e, ^, $, g
and G) leaves the cursor within bounds: 0 ≤ line < lineCount and
0 ≤ column ≤ length of the cursor's line. -/
theorem motions_stay_in_bounds (s : EditorState) (i : Input)
    (hwf : s.editor.cursorInBounds) (hm : s.mode = Mode.Normal)
    (hi : i ∈ motionInputs) :
    ((step s i).1).editor.cursorInBounds := by
  obtain ⟨e, m, p⟩ := s
  dsimp only at hm
  subst hm
  fin_cases hi
  · exact moveCursor_bounds e CursorMove.Back hwf
  · exact moveCursor_bounds e CursorMove.Down hwf
  · exact moveCursor_bounds e CursorMove.Up hwf
  · exact moveCursor_bounds e CursorMove.Forward hwf
  · exact moveCursor_bounds e CursorMove.WordForward hwf
  · exact moveCursor_bounds e CursorMove.WordBack hwf
  · exact moveCursor_bounds e CursorMove.WordEnd hwf
  · exact moveCursor_bounds e CursorMove.Head hwf
  · exact moveCursor_bounds e CursorMove.End hwf
  · rw [step_g]
    split_ifs
    · exact moveCursor_bounds e CursorMove.Top hwf
    · exact hwf
  · exact moveCursor_bounds e CursorMove.Bottom hwf

/-- Witness for C7: the h motion applied at the concrete state with buffer
["ab"] and cursor (0, 1). -/
theorem motions_stay_in_bounds_witness :
    ((step (mkState ["ab"] ⟨0, 1⟩) (chr 'h')).1).editor.cursorInBounds :=
  motions_stay_in_bounds (mkState ["ab"] ⟨0, 1⟩) (chr 'h') ⟨by decide, by decide⟩ rfl
    (by decide)

set_option maxRecDepth 4000 in
/-- C8: the buffer always contains at least one line after any sequence of
commands, and for every single-line buffer, d, d deletes all of its content
and leaves exactly one empty line, never zero lines. -/
theorem buffer_never_empty (s : EditorState) (inputs : List Input)
    (h : s.editor.invariant) :
    (run s inputs).editor.lines ≠ [] ∧
      ∀ (str : String) (c : Nat),
        (run (mkState [str] ⟨0, c⟩) [chr 'd', chr 'd']).editor.lines = [String.mk []] := by
  constructor
  · have h1 := (run_inv s inputs h).1.1
    intro hemp
    rw [hemp] at h1
    simp at h1
  · intro str c
    show ((lineSelect ⟨[str], ⟨0, c⟩, some ⟨0, c⟩, none, [], []⟩).cut).lines = [String.mk []]
    rw [show lineSelect ⟨[str], ⟨0, c⟩, some ⟨0, c⟩, none, [], []⟩ =
        ⟨[str], ⟨0, str.length⟩, some ⟨0, 0⟩, none, [], []⟩ from by
      unfold lineSelect
      simp [TextArea.moveCursor, TextArea.startSelection, TextArea.lineAt]]
    unfold TextArea.cut
    dsimp only
    simp only [TextArea.pushHistory, TextArea.clampPos, TextArea.lineAt,
      List.length_cons, List.length_nil, List.getD_cons_zero, Nat.zero_add, Nat.sub_self,
      Nat.zero_min, Nat.min_self]
    rw [show (Pos.lePos ⟨0, 0⟩ ⟨0, str.length⟩) = true from by simp [Pos.lePos]]
    simp only [reduceIte]
    simp only [TextArea.deleteRange, TextArea.lineAt, List.getD_cons_zero,
      List.set_cons_zero, List.take_zero, List.nil_append, strLen, List.drop_length,
      if_true]

/-- Witness for C8: one D command on the concrete single-line buffer ["a"]
leaves a nonempty line list. -/
theorem buffer_never_empty_witness :
    (run (mkState ["a"] ⟨0, 0⟩) [chr 'D']).editor.lines ≠ [] :=
  (buffer_never_empty (mkState ["a"] ⟨0, 0⟩) [chr 'D']
    ⟨⟨by decide, by decide⟩, fun en hen => absurd hen (List.not_mem_nil en),
      fun en hen => absurd hen (List.not_mem_nil en)⟩).1

/-- C9: processing a token whose key is Null is a universal no-op: the
signal is Continue (false, not Quit), and the mode, pending token, buffer
content and cursor are all unchanged. -/
theorem null_key_is_noop (s : EditorState) (i : Input) (h : i.key = Key.Null) :
    step s i = (s, false) := by
  obtain ⟨k, ct, al⟩ := i
  dsimp only at h
  subst h
  rfl

/-- Witness for C9: the default (Null) token at a concrete one-line state. -/
theorem null_key_is_noop_witness :
    step (mkState ["a"] ⟨0, 0⟩) defaultInput = (mkState ["a"] ⟨0, 0⟩, false) :=
  null_key_is_noop (mkState ["a"] ⟨0, 0⟩) defaultInput rfl

/-- C10: in OperatorPending(op) mode, Escape does not cancel back to Normal:
the mode remains Operator(op), the text area (buffer and cursor) is
unchanged, the Escape token is stored as the pending token, and the signal
is Continue (false). -/
theorem esc_in_operator_pending (s : EditorState) (op : Char)
    (h : s.mode = Mode.Operator op) :
    step s escInput = (⟨s.editor, Mode.Operator op, escInput⟩, false) := by
  obtain ⟨e, m, p⟩ := s
  dsimp only at h
  subst h
  rfl

/-- Witness for C10: Escape in Operator('d') mode at a concrete state. -/
theorem esc_in_operator_pending_witness :
    step ⟨⟨["a"], ⟨0, 0⟩, none, none, [], []⟩, Mode.Operator 'd', defaultInput⟩ escInput =
      (⟨⟨["a"], ⟨0, 0⟩, none, none, [], []⟩, Mode.Operator 'd', escInput⟩, false) :=
  esc_in_operator_pending ⟨⟨["a"], ⟨0, 0⟩, none, none, [], []⟩, Mode.Operator 'd',
    defaultInput⟩ 'd' rfl

end Halfmoon
